import Mathlib

/-!
Verification development for the zfssnap snapshot/replication manager
(single-file Python program, `zfssnap.py`).

The definitions below are a shallow embedding of the program's retention
engine, metadata-file handling and file-mediated replication protocol.
Datetimes are modelled as integer seconds since the UTC epoch (the program
only ever compares, truncates and shifts parsed UTC datetimes, which this
representation captures exactly; the epoch is midnight-aligned so
truncation to the top of the hour or to midnight is integer arithmetic).
External collaborators (the zfs/split/cat tools, the filesystem and the
md5 hash) are modelled by explicit parameters: the outcome of a pipeline
is a boolean parameter, the transfer directory is a list of file names,
and the checksum function is an arbitrary function parameter.
-/

/-- A zfssnap-managed snapshot as the program sees it: its snapshot name
(the part after the `@`), the UTC instant parsed from the name's embedded
timestamp, and the cached `zfssnap:label` / `zfssnap:repl_status`
properties (absent properties are `none`). -/
structure RSnapshot where
  name : String
  datetime : Int
  label : Option String
  replStatus : Option String
deriving DecidableEq

/-- Descending-datetime ordering used by every `sorted(..., reverse=True)`
call in the program. -/
def rdesc (a b : RSnapshot) : Prop := b.datetime ≤ a.datetime

instance : DecidableRel rdesc := fun a b => Int.decLe b.datetime a.datetime

instance : IsTotal RSnapshot rdesc := ⟨fun a b => le_total b.datetime a.datetime⟩

instance : IsTrans RSnapshot rdesc := ⟨fun _ _ _ h1 h2 => le_trans h2 h1⟩

/-- Python `sorted(snapshots, key=attrgetter(datetime), reverse=True)`:
a stable descending sort by datetime. -/
def sortedByDatetimeDesc (l : List RSnapshot) : List RSnapshot :=
  l.insertionSort rdesc

/-- `Filesystem.get_snapshots`: all snapshots of the filesystem, filtered
by label when a label is given (the snapshot list is the host cache entry
for this filesystem). -/
def get_snapshots (snaps : List RSnapshot) (label : Option String) : List RSnapshot :=
  snaps.filter (fun s =>
    match label with
    | none => true
    | some l => decide (s.label = some l))

/-- `Filesystem.get_latest_repl_snapshot`: the first snapshot, scanning
newest first, whose `repl_status` equals the wanted status. -/
def get_latest_repl_snapshot (snaps : List RSnapshot) (label : Option String)
    (status : String) : Option RSnapshot :=
  (sortedByDatetimeDesc (get_snapshots snaps label)).find?
    (fun s => decide (s.replStatus = some status))

/-- `Filesystem.get_snapshot`: look a snapshot up by snapshot name. -/
def get_snapshot (snaps : List RSnapshot) (n : String) : Option RSnapshot :=
  snaps.find? (fun s => decide (s.name = n))

/-- Leap-year test of the proleptic Gregorian calendar used by Python
datetime. -/
def isLeap (y : Int) : Bool :=
  (decide (Int.emod y 4 = 0) && !(decide (Int.emod y 100 = 0))) || decide (Int.emod y 400 = 0)

/-- Number of days of month m (1-12) in year y. -/
def daysInMonth (y : Int) (m : Nat) : Nat :=
  if m = 2 then (if isLeap y then 29 else 28)
  else if m = 4 ∨ m = 6 ∨ m = 9 ∨ m = 11 then 30
  else 31

/-- Days since the epoch of the civil date y-m-d (standard
days-from-civil conversion). -/
def daysFromCivil (y0 : Int) (m d : Nat) : Int :=
  let y : Int := if m ≤ 2 then y0 - 1 else y0
  let era : Int := Int.fdiv y 400
  let yoe : Int := y - era * 400
  let mp : Int := if m > 2 then (m : Int) - 3 else (m : Int) + 9
  let doy : Int := Int.fdiv (153 * mp + 2) 5 + (d : Int) - 1
  let doe : Int := yoe * 365 + Int.fdiv yoe 4 - Int.fdiv yoe 100 + doy
  era * 146097 + doe - 719468

/-- Civil date (year, month, day) of a day count since the epoch
(standard civil-from-days conversion). -/
def civilFromDays (z0 : Int) : Int × Nat × Nat :=
  let z : Int := z0 + 719468
  let era : Int := Int.fdiv z 146097
  let doe : Int := z - era * 146097
  let yoe : Int :=
    Int.fdiv (doe - Int.fdiv doe 1460 + Int.fdiv doe 36524 - Int.fdiv doe 146096) 365
  let y : Int := yoe + era * 400
  let doy : Int := doe - (365 * yoe + Int.fdiv yoe 4 - Int.fdiv yoe 100)
  let mp : Int := Int.fdiv (5 * doy + 2) 153
  let d : Int := doy - Int.fdiv (153 * mp + 2) 5 + 1
  let m : Int := if mp < 10 then mp + 3 else mp - 9
  (if m ≤ 2 then y + 1 else y, m.toNat, d.toNat)

/-- Shift the month of a (year, month) pair by k months. -/
def monthShift (y : Int) (m : Nat) (k : Int) : Int × Nat :=
  let idx : Int := y * 12 + ((m : Int) - 1) + k
  (Int.fdiv idx 12, (Int.emod idx 12).toNat + 1)

/-- Add k calendar months to a datetime, clamping the day of month, the
way dateutil relativedelta arithmetic does. -/
def dtAddMonths (t : Int) (k : Int) : Int :=
  let day := Int.fdiv t 86400
  let tod := Int.emod t 86400
  let c := civilFromDays day
  let ym := monthShift c.1 c.2.1 k
  let d2 := min c.2.2 (daysInMonth ym.1 ym.2)
  daysFromCivil ym.1 ym.2 d2 * 86400 + tod

/-- The two delta kinds the retention engine uses: fixed-width
timedeltas (seconds) and calendar relativedeltas (months or years). -/
inductive RDelta where
  | seconds (n : Int)
  | months (n : Nat)
  | years (n : Nat)
deriving DecidableEq

/-- Python `delta * keep` on a timedelta or relativedelta. -/
def RDelta.mul : RDelta → Nat → RDelta
  | .seconds n, k => .seconds (n * (k : Int))
  | .months n, k => .months (n * k)
  | .years n, k => .years (n * k)

/-- Python `datetime - delta`. -/
def dtSub (t : Int) : RDelta → Int
  | .seconds n => t - n
  | .months k => dtAddMonths t (-(k : Int))
  | .years k => dtAddMonths t (-(12 * (k : Int)))

/-- Python `datetime + delta`. -/
def dtAdd (t : Int) : RDelta → Int
  | .seconds n => t + n
  | .months k => dtAddMonths t (k : Int)
  | .years k => dtAddMonths t (12 * (k : Int))

/-- The while loop of `Filesystem._get_delta_datetimes`, totalized with
fuel: yield `current` and step `current -= delta` while `current > end`.
Each call site passes `end = start - delta * keep`, so when `delta`
strictly decreases the datetime (it always does: every delta used is at
least one hour) the loop makes at most `start - end` steps, hence the
fuel chosen in `get_delta_datetimes` below never runs out where the
source loop terminates. -/
def get_delta_datetimes_fuel : Nat → Int → Int → RDelta → List Int
  | 0, _, _, _ => []
  | fuel + 1, current, endT, delta =>
    if current > endT then
      current :: get_delta_datetimes_fuel fuel (dtSub current delta) endT delta
    else []

/-- `Filesystem._get_delta_datetimes(start, end, delta)`. -/
def get_delta_datetimes (start endT : Int) (delta : RDelta) : List Int :=
  get_delta_datetimes_fuel ((start - endT).toNat + 1) start endT delta

/-- `Filesystem._get_interval_snapshots`: for each stepped slot start
`dt`, the first snapshot (scanning newest first) whose datetime lies in
`[dt, dt + delta)`. -/
def get_interval_snapshots (snapshots : List RSnapshot) (start endT : Int)
    (delta : RDelta) : List RSnapshot :=
  let sorted := sortedByDatetimeDesc snapshots
  (get_delta_datetimes start endT delta).filterMap
    (fun dt => sorted.find?
      (fun s => decide (dt ≤ s.datetime) && decide (s.datetime < dtAdd dt delta)))

/-- Truncation of the current instant to the top of the hour
(`replace(minute=0, second=0, microsecond=0)`). -/
def hourStart (now : Int) : Int := now - Int.emod now 3600

/-- Truncation of the current instant to midnight
(`replace(hour=0, minute=0, second=0, microsecond=0)`). -/
def dayStart (now : Int) : Int := now - Int.emod now 86400

/-- Truncation of the current instant to the first of the month. -/
def monthStartDt (now : Int) : Int :=
  let c := civilFromDays (Int.fdiv now 86400)
  daysFromCivil c.1 c.2.1 1 * 86400

/-- Truncation of the current instant to the first of January. -/
def yearStartDt (now : Int) : Int :=
  let c := civilFromDays (Int.fdiv now 86400)
  daysFromCivil c.1 1 1 * 86400

/-- `Filesystem._get_hourly_snapshots` (keep-reason bookkeeping, which is
log-only, is omitted). -/
def get_hourly_snapshots (snapshots : List RSnapshot) (keep : Nat) (now : Int) :
    List RSnapshot :=
  let start := hourStart now
  let delta := RDelta.seconds 3600
  get_interval_snapshots snapshots start (dtSub start (delta.mul keep)) delta

/-- `Filesystem._get_daily_snapshots`. -/
def get_daily_snapshots (snapshots : List RSnapshot) (keep : Nat) (now : Int) :
    List RSnapshot :=
  let start := dayStart now
  let delta := RDelta.seconds 86400
  get_interval_snapshots snapshots start (dtSub start (delta.mul keep)) delta

/-- `Filesystem._get_weekly_snapshots`: note the source truncates to
midnight, not to the start of the week, and steps by 7 days. -/
def get_weekly_snapshots (snapshots : List RSnapshot) (keep : Nat) (now : Int) :
    List RSnapshot :=
  let start := dayStart now
  let delta := RDelta.seconds 604800
  get_interval_snapshots snapshots start (dtSub start (delta.mul keep)) delta

/-- `Filesystem._get_monthly_snapshots`. -/
def get_monthly_snapshots (snapshots : List RSnapshot) (keep : Nat) (now : Int) :
    List RSnapshot :=
  let start := monthStartDt now
  let delta := RDelta.months 1
  get_interval_snapshots snapshots start (dtSub start (delta.mul keep)) delta

/-- `Filesystem._get_yearly_snapshots`. -/
def get_yearly_snapshots (snapshots : List RSnapshot) (keep : Nat) (now : Int) :
    List RSnapshot :=
  let start := yearStartDt now
  let delta := RDelta.years 1
  get_interval_snapshots snapshots start (dtSub start (delta.mul keep)) delta

/-- `Filesystem._get_latest_snapshots`: the keep most recent snapshots. -/
def get_latest_snapshots (snapshots : List RSnapshot) (keep : Nat) : List RSnapshot :=
  (sortedByDatetimeDesc snapshots).take keep

/-- The keep policy: six non-negative counters (config validation rejects
negative values, so Nat). -/
structure Keep where
  latest : Nat
  hourly : Nat
  daily : Nat
  weekly : Nat
  monthly : Nat
  yearly : Nat
deriving DecidableEq

/-- The union of the per-rule keep selections built by
`Filesystem.enforce_retention` before its destroy loop. The source builds
it by successive `set.update` calls guarded by `keep[kind] > 0`; here the
same set is the union of the guarded selections. -/
def bucket_keep_set (snapshots : List RSnapshot) (keep : Keep) (now : Int) :
    Finset RSnapshot :=
  (if keep.latest > 0 then (get_latest_snapshots snapshots keep.latest).toFinset else ∅)
  ∪ (if keep.hourly > 0 then (get_hourly_snapshots snapshots keep.hourly now).toFinset else ∅)
  ∪ (if keep.daily > 0 then (get_daily_snapshots snapshots keep.daily now).toFinset else ∅)
  ∪ (if keep.weekly > 0 then (get_weekly_snapshots snapshots keep.weekly now).toFinset else ∅)
  ∪ (if keep.monthly > 0 then (get_monthly_snapshots snapshots keep.monthly now).toFinset else ∅)
  ∪ (if keep.yearly > 0 then (get_yearly_snapshots snapshots keep.yearly now).toFinset else ∅)

/-- The complete keep set of `Filesystem.enforce_retention`: empty on
reset; otherwise the replication pin (when in a replication role) united
with the bucket selections. -/
def retention_keep_set (snaps : List RSnapshot) (keep : Keep) (label : Option String)
    (reset replication : Bool) (now : Int) : Finset RSnapshot :=
  if reset then ∅
  else
    (if replication then
      match get_latest_repl_snapshot snaps label "success" with
      | some r => {r}
      | none => ∅
    else ∅)
    ∪ bucket_keep_set (get_snapshots snaps label) keep now

/-- Outcome of a retention run: which snapshots were kept and which were
destroyed, in the order they were visited (newest first). -/
structure RetentionResult where
  kept : List RSnapshot
  destroyed : List RSnapshot
deriving DecidableEq

/-- The final loop of `Filesystem.enforce_retention`: walk the snapshots
newest first; in a replication role first discard the visited snapshot
from the keep set when its repl_status is not success; then destroy it if
it is not in the (possibly updated) keep set. -/
def retentionLoop (replication : Bool) : Finset RSnapshot → List RSnapshot → RetentionResult
  | _, [] => ⟨[], []⟩
  | ks, s :: rest =>
    let ks2 := if replication = true ∧ s.replStatus ≠ some "success" then ks.erase s else ks
    let r := retentionLoop replication ks2 rest
    if s ∈ ks2 then ⟨s :: r.kept, r.destroyed⟩ else ⟨r.kept, s :: r.destroyed⟩

/-- `Filesystem.enforce_retention(keep, label, recursive, reset,
replication)` at the current instant `now` (the recursive flag only
changes the destroy command line, not which snapshots are destroyed, and
is omitted). -/
def enforce_retention (snaps : List RSnapshot) (keep : Keep) (label : Option String)
    (reset replication : Bool) (now : Int) : RetentionResult :=
  retentionLoop replication (retention_keep_set snaps keep label reset replication now)
    (sortedByDatetimeDesc (get_snapshots snaps label))

/-! Helper lemmas about sorting and the retention loop. -/

theorem mem_sortedByDatetimeDesc {l : List RSnapshot} {x : RSnapshot} :
    x ∈ sortedByDatetimeDesc l ↔ x ∈ l :=
  List.mem_insertionSort rdesc

theorem sorted_sortedByDatetimeDesc (l : List RSnapshot) :
    List.Sorted rdesc (sortedByDatetimeDesc l) :=
  List.sorted_insertionSort rdesc l

/-- The element found by a newest-first scan has maximal datetime among
all elements satisfying the predicate. -/
theorem find?_max_of_sorted {l : List RSnapshot} {p : RSnapshot → Bool} {a : RSnapshot}
    (hs : List.Sorted rdesc l) (hf : l.find? p = some a) :
    ∀ x ∈ l, p x = true → x.datetime ≤ a.datetime := by
  induction l with
  | nil => simp at hf
  | cons h t ih =>
    intro x hx hpx
    by_cases hph : p h = true
    · rw [List.find?_cons_of_pos _ hph] at hf
      have ha : h = a := Option.some.inj hf
      rcases List.mem_cons.mp hx with rfl | hxt
      · exact ha ▸ le_refl _
      · exact ha ▸ List.rel_of_sorted_cons hs x hxt
    · rw [List.find?_cons_of_neg _ hph] at hf
      rcases List.mem_cons.mp hx with rfl | hxt
      · exact absurd hpx hph
      · exact ih hs.of_cons hf x hxt hpx

theorem get_latest_repl_snapshot_spec {snaps : List RSnapshot} {label : Option String}
    {status : String} {p : RSnapshot}
    (h : get_latest_repl_snapshot snaps label status = some p) :
    p ∈ get_snapshots snaps label ∧ p.replStatus = some status ∧
      ∀ q ∈ get_snapshots snaps label, q.replStatus = some status →
        q.datetime ≤ p.datetime := by
  unfold get_latest_repl_snapshot at h
  refine ⟨mem_sortedByDatetimeDesc.mp (List.mem_of_find?_eq_some h), ?_, ?_⟩
  · have := List.find?_some h
    simpa using this
  · intro q hq hqs
    exact find?_max_of_sorted (sorted_sortedByDatetimeDesc _) h q
      (mem_sortedByDatetimeDesc.mpr hq) (by simpa using hqs)

theorem get_latest_repl_snapshot_isSome {snaps : List RSnapshot} {label : Option String}
    {status : String}
    (h : ∃ s ∈ get_snapshots snaps label, s.replStatus = some status) :
    ∃ p, get_latest_repl_snapshot snaps label status = some p := by
  unfold get_latest_repl_snapshot
  obtain ⟨s, hs, hss⟩ := h
  have hsome : ((sortedByDatetimeDesc (get_snapshots snaps label)).find?
      (fun s => decide (s.replStatus = some status))).isSome :=
    List.find?_isSome.mpr ⟨s, mem_sortedByDatetimeDesc.mpr hs, by simpa using hss⟩
  exact Option.isSome_iff_exists.mp hsome

/-- Definitional unfolding of one step of the retention loop. -/
theorem retentionLoop_cons_eq (repl : Bool) (ks : Finset RSnapshot) (s : RSnapshot)
    (rest : List RSnapshot) :
    retentionLoop repl ks (s :: rest) =
      if s ∈ (if repl = true ∧ s.replStatus ≠ some "success" then ks.erase s else ks) then
        ⟨s :: (retentionLoop repl
            (if repl = true ∧ s.replStatus ≠ some "success" then ks.erase s else ks) rest).kept,
          (retentionLoop repl
            (if repl = true ∧ s.replStatus ≠ some "success" then ks.erase s else ks) rest).destroyed⟩
      else
        ⟨(retentionLoop repl
            (if repl = true ∧ s.replStatus ≠ some "success" then ks.erase s else ks) rest).kept,
          s :: (retentionLoop repl
            (if repl = true ∧ s.replStatus ≠ some "success" then ks.erase s else ks) rest).destroyed⟩ :=
  rfl

/-- In a replication role a visited snapshot without success status is
first discarded from the keep set, hence destroyed. -/
theorem retentionLoop_cons_discard {s : RSnapshot} (ks : Finset RSnapshot)
    (rest : List RSnapshot) (hns : s.replStatus ≠ some "success") :
    retentionLoop true ks (s :: rest) =
      ⟨(retentionLoop true (ks.erase s) rest).kept,
        s :: (retentionLoop true (ks.erase s) rest).destroyed⟩ := by
  have hcond : (true : Bool) = true ∧ s.replStatus ≠ some "success" := ⟨rfl, hns⟩
  rw [retentionLoop_cons_eq, if_pos hcond, if_neg (Finset.not_mem_erase s ks)]

/-- When the discard condition does not hold the keep set is unchanged at
this step. -/
theorem retentionLoop_cons_keep (repl : Bool) {s : RSnapshot} (ks : Finset RSnapshot)
    (rest : List RSnapshot) (hc : ¬(repl = true ∧ s.replStatus ≠ some "success")) :
    retentionLoop repl ks (s :: rest) =
      if s ∈ ks then
        ⟨s :: (retentionLoop repl ks rest).kept, (retentionLoop repl ks rest).destroyed⟩
      else
        ⟨(retentionLoop repl ks rest).kept, s :: (retentionLoop repl ks rest).destroyed⟩ := by
  rw [retentionLoop_cons_eq, if_neg hc]

/-- A snapshot with success status that is in the keep set is never
discarded nor destroyed by the retention loop. -/
theorem retentionLoop_success_pinned {p : RSnapshot} (hp : p.replStatus = some "success") :
    ∀ (l : List RSnapshot) (ks : Finset RSnapshot), p ∈ ks →
      p ∉ (retentionLoop true ks l).destroyed ∧
        (p ∈ l → p ∈ (retentionLoop true ks l).kept) := by
  intro l
  induction l with
  | nil =>
    intro ks _
    simp [retentionLoop]
  | cons s rest ih =>
    intro ks hks
    by_cases hcs : s.replStatus = some "success"
    · rw [retentionLoop_cons_keep true ks rest (by simp [hcs])]
      obtain ⟨ihd, ihk⟩ := ih ks hks
      by_cases hmem : s ∈ ks
      · rw [if_pos hmem]
        refine ⟨ihd, ?_⟩
        intro hpl
        rcases List.mem_cons.mp hpl with rfl | hpt
        · exact List.mem_cons_self _ _
        · exact List.mem_cons_of_mem _ (ihk hpt)
      · rw [if_neg hmem]
        constructor
        · intro hd
          rcases List.mem_cons.mp hd with rfl | hd2
          · exact hmem hks
          · exact ihd hd2
        · intro hpl
          rcases List.mem_cons.mp hpl with rfl | hpt
          · exact absurd hks hmem
          · exact ihk hpt
    · have hsp : s ≠ p := fun he => hcs (he ▸ hp)
      have hks2 : p ∈ ks.erase s := Finset.mem_erase.mpr ⟨fun he => hsp he.symm, hks⟩
      rw [retentionLoop_cons_discard ks rest hcs]
      obtain ⟨ihd, ihk⟩ := ih (ks.erase s) hks2
      constructor
      · intro hd
        rcases List.mem_cons.mp hd with rfl | hd2
        · exact absurd rfl hsp
        · exact ihd hd2
      · intro hpl
        rcases List.mem_cons.mp hpl with rfl | hpt
        · exact absurd rfl hsp
        · exact ihk hpt

/-- In a replication role the retention loop always destroys a snapshot
whose repl_status is not success. -/
theorem retentionLoop_destroys_nonsuccess {s0 : RSnapshot}
    (h : s0.replStatus ≠ some "success") :
    ∀ (l : List RSnapshot) (ks : Finset RSnapshot),
      s0 ∉ (retentionLoop true ks l).kept ∧
        (s0 ∈ l → s0 ∈ (retentionLoop true ks l).destroyed) := by
  intro l
  induction l with
  | nil =>
    intro ks
    simp [retentionLoop]
  | cons s rest ih =>
    intro ks
    by_cases hcs : s.replStatus = some "success"
    · have hsne : s0 ≠ s := fun he => h (he ▸ hcs)
      rw [retentionLoop_cons_keep true ks rest (by simp [hcs])]
      obtain ⟨ihk, ihd⟩ := ih ks
      by_cases hmem : s ∈ ks
      · rw [if_pos hmem]
        constructor
        · intro hk
          rcases List.mem_cons.mp hk with he | hk2
          · exact hsne he
          · exact ihk hk2
        · intro hl
          rcases List.mem_cons.mp hl with he | hlt
          · exact absurd he hsne
          · exact ihd hlt
      · rw [if_neg hmem]
        constructor
        · exact ihk
        · intro hl
          rcases List.mem_cons.mp hl with he | hlt
          · exact absurd he hsne
          · exact List.mem_cons_of_mem _ (ihd hlt)
    · rw [retentionLoop_cons_discard ks rest hcs]
      obtain ⟨ihk, ihd⟩ := ih (ks.erase s)
      constructor
      · exact ihk
      · intro hl
        rcases List.mem_cons.mp hl with rfl | hlt
        · exact List.mem_cons_self _ _
        · exact List.mem_cons_of_mem _ (ihd hlt)

/-- With an empty keep set the retention loop destroys everything. -/
theorem retentionLoop_empty (repl : Bool) (l : List RSnapshot) :
    retentionLoop repl ∅ l = ⟨[], l⟩ := by
  induction l with
  | nil => rfl
  | cons s rest ih =>
    rw [retentionLoop_cons_eq]
    have hks2 : (if repl = true ∧ s.replStatus ≠ some "success" then
        Finset.erase ∅ s else (∅ : Finset RSnapshot)) = ∅ := by
      split
      · exact Finset.erase_empty s
      · rfl
    rw [hks2, ih, if_neg (Finset.not_mem_empty s)]

/-- Outside a replication role the loop never updates the keep set: it
keeps exactly the members of the keep set and destroys the rest. -/
theorem retentionLoop_false_eq (ks : Finset RSnapshot) (l : List RSnapshot) :
    retentionLoop false ks l =
      ⟨l.filter (fun s => decide (s ∈ ks)), l.filter (fun s => decide (s ∉ ks))⟩ := by
  induction l with
  | nil => rfl
  | cons s rest ih =>
    rw [retentionLoop_cons_keep false ks rest (by simp), ih]
    by_cases hmem : s ∈ ks
    · rw [if_pos hmem]
      simp [List.filter_cons, hmem]
    · rw [if_neg hmem]
      simp [List.filter_cons, hmem]

/-- C1: when at least one snapshot of the (filesystem, label) pair has
replication-status success and enforce_retention runs in a replication
role without reset, the single most recent success snapshot is added to
the keep set and survives the run, whatever the keep counters say. -/
theorem retention_pins_latest_success_snapshot
    (snaps : List RSnapshot) (keep : Keep) (label : Option String) (now : Int)
    (hex : ∃ s ∈ get_snapshots snaps label, s.replStatus = some "success") :
    ∃ p, get_latest_repl_snapshot snaps label "success" = some p ∧
      p.replStatus = some "success" ∧
      (∀ q ∈ get_snapshots snaps label, q.replStatus = some "success" →
        q.datetime ≤ p.datetime) ∧
      p ∈ retention_keep_set snaps keep label false true now ∧
      p ∉ (enforce_retention snaps keep label false true now).destroyed ∧
      p ∈ (enforce_retention snaps keep label false true now).kept := by
  obtain ⟨p, hp⟩ := get_latest_repl_snapshot_isSome hex
  obtain ⟨hmem, hstat, hmax⟩ := get_latest_repl_snapshot_spec hp
  have hks : p ∈ retention_keep_set snaps keep label false true now := by
    simp [retention_keep_set, hp]
  have hloop := retentionLoop_success_pinned hstat
    (sortedByDatetimeDesc (get_snapshots snaps label))
    (retention_keep_set snaps keep label false true now) hks
  exact ⟨p, hp, hstat, hmax, hks, hloop.1, hloop.2 (mem_sortedByDatetimeDesc.mpr hmem)⟩

/-- Witness data used by several concrete evaluations below. -/
def wsnapA : RSnapshot := ⟨"zfssnap_20200101T000000Z", 0, some "daily", some "success"⟩

def wsnapB : RSnapshot := ⟨"zfssnap_20200101T010000Z", 3600, some "daily", none⟩

def wsnaps : List RSnapshot := [wsnapA, wsnapB]

/-- Witness for C1: the theorem applied to a concrete snapshot list in
which the older of two snapshots carries the success status. -/
theorem retention_pins_latest_success_snapshot_witness :
    (∃ s ∈ get_snapshots wsnaps (some "daily"), s.replStatus = some "success") ∧
    (∃ p, get_latest_repl_snapshot wsnaps (some "daily") "success" = some p ∧
      p.replStatus = some "success" ∧
      (∀ q ∈ get_snapshots wsnaps (some "daily"), q.replStatus = some "success" →
        q.datetime ≤ p.datetime) ∧
      p ∈ retention_keep_set wsnaps ⟨1, 0, 0, 0, 0, 0⟩ (some "daily") false true 7200 ∧
      p ∉ (enforce_retention wsnaps ⟨1, 0, 0, 0, 0, 0⟩ (some "daily") false true 7200).destroyed ∧
      p ∈ (enforce_retention wsnaps ⟨1, 0, 0, 0, 0, 0⟩ (some "daily") false true 7200).kept) :=
  ⟨by decide,
    retention_pins_latest_success_snapshot wsnaps ⟨1, 0, 0, 0, 0, 0⟩ (some "daily") 7200
      (by decide)⟩

/-- C2: in a replication role, every snapshot of the (filesystem, label)
pair whose repl_status is not success is destroyed and never kept, no
matter which rule selected it. -/
theorem replication_retention_destroys_nonsuccess
    (snaps : List RSnapshot) (keep : Keep) (label : Option String)
    (reset : Bool) (now : Int) (s : RSnapshot)
    (hs : s ∈ get_snapshots snaps label) (hns : s.replStatus ≠ some "success") :
    s ∈ (enforce_retention snaps keep label reset true now).destroyed ∧
      s ∉ (enforce_retention snaps keep label reset true now).kept := by
  have h := retentionLoop_destroys_nonsuccess hns
    (sortedByDatetimeDesc (get_snapshots snaps label))
    (retention_keep_set snaps keep label reset true now)
  exact ⟨h.2 (mem_sortedByDatetimeDesc.mpr hs), h.1⟩

/-- Witness for C2: the newest snapshot of the concrete list has no
success status and is destroyed even though keep latest is 1. -/
theorem replication_retention_destroys_nonsuccess_witness :
    wsnapB ∈ get_snapshots wsnaps (some "daily") ∧
    wsnapB.replStatus ≠ some "success" ∧
    (wsnapB ∈ (enforce_retention wsnaps ⟨1, 0, 0, 0, 0, 0⟩ (some "daily") false true 7200).destroyed ∧
      wsnapB ∉ (enforce_retention wsnaps ⟨1, 0, 0, 0, 0, 0⟩ (some "daily") false true 7200).kept) :=
  ⟨by decide, by decide,
    replication_retention_destroys_nonsuccess wsnaps ⟨1, 0, 0, 0, 0, 0⟩ (some "daily")
      false 7200 wsnapB (by decide) (by decide)⟩

/-- C4: reset always yields an empty keep set, so the run destroys every
snapshot of the (filesystem, label) pair regardless of keep counters,
replication role and replication statuses. -/
theorem reset_retention_destroys_everything
    (snaps : List RSnapshot) (keep : Keep) (label : Option String)
    (replication : Bool) (now : Int) :
    retention_keep_set snaps keep label true replication now = ∅ ∧
    (enforce_retention snaps keep label true replication now).kept = [] ∧
    (enforce_retention snaps keep label true replication now).destroyed
      = sortedByDatetimeDesc (get_snapshots snaps label) ∧
    ∀ s ∈ get_snapshots snaps label,
      s ∈ (enforce_retention snaps keep label true replication now).destroyed := by
  have hks : retention_keep_set snaps keep label true replication now = ∅ := by
    simp [retention_keep_set]
  have he : enforce_retention snaps keep label true replication now
      = ⟨[], sortedByDatetimeDesc (get_snapshots snaps label)⟩ := by
    unfold enforce_retention
    rw [hks]
    exact retentionLoop_empty _ _
  refine ⟨hks, by rw [he], by rw [he], ?_⟩
  intro s hs
  rw [he]
  exact mem_sortedByDatetimeDesc.mpr hs

/-! C3: the hourly bucket rule. -/

theorem gdd_fuel_cons {fuel : Nat} {cur endT d : Int} (h : cur > endT) :
    get_delta_datetimes_fuel (fuel + 1) cur endT (RDelta.seconds d) =
      cur :: get_delta_datetimes_fuel fuel (cur - d) endT (RDelta.seconds d) := by
  simp [get_delta_datetimes_fuel, h, dtSub]

theorem gdd_fuel_nil {fuel : Nat} {cur endT : Int} {delta : RDelta} (h : ¬cur > endT) :
    get_delta_datetimes_fuel fuel cur endT delta = [] := by
  cases fuel <;> simp [get_delta_datetimes_fuel, h]

/-- With hourly keep 2 the stepped slot starts are the top of the current
hour and one hour earlier. -/
theorem gdd_hourly_two (H : Int) :
    get_delta_datetimes H (dtSub H ((RDelta.seconds 3600).mul 2)) (RDelta.seconds 3600)
      = [H, H - 3600] := by
  have h1 : (RDelta.seconds 3600).mul 2 = RDelta.seconds 7200 := by
    simp [RDelta.mul]
  rw [h1]
  show get_delta_datetimes H (H - 7200) (RDelta.seconds 3600) = [H, H - 3600]
  unfold get_delta_datetimes
  have hfuel : (H - (H - 7200)).toNat + 1 = 7201 := by omega
  rw [hfuel, show (7201 : Nat) = 7200 + 1 from rfl]
  have hA : H > H - 7200 := by omega
  rw [gdd_fuel_cons hA, show (7200 : Nat) = 7199 + 1 from rfl]
  have hB : H - 3600 > H - 7200 := by omega
  rw [gdd_fuel_cons hB]
  have hC : ¬H - 3600 - 3600 > H - 7200 := by omega
  rw [gdd_fuel_nil hC]

/-- Membership test of the half-open slot [lo, hi). -/
def inSlot (lo hi : Int) (s : RSnapshot) : Bool :=
  decide (lo ≤ s.datetime) && decide (s.datetime < hi)

/-- Running maximum-by-datetime starting from s. -/
def maxSnap (s : RSnapshot) : List RSnapshot → RSnapshot
  | [] => s
  | t :: rest => if s.datetime < t.datetime then maxSnap t rest else maxSnap s rest

/-- The snapshot of maximal datetime of a list. -/
def maxByDatetime : List RSnapshot → Option RSnapshot
  | [] => none
  | s :: rest => some (maxSnap s rest)

/-- Stated from the spec wording of the claim: the newest snapshot whose
timestamp falls in the slot [lo, hi), used to compare the spec reading of
the hourly rule against the code. -/
def newestInSlot (snaps : List RSnapshot) (lo hi : Int) : Option RSnapshot :=
  maxByDatetime (snaps.filter (inSlot lo hi))

def optSnapFinset : Option RSnapshot → Finset RSnapshot
  | none => ∅
  | some s => {s}

theorem maxSnap_spec (l : List RSnapshot) :
    ∀ s : RSnapshot, maxSnap s l ∈ s :: l ∧ ∀ x ∈ s :: l, x.datetime ≤ (maxSnap s l).datetime := by
  induction l with
  | nil =>
    intro s
    refine ⟨List.mem_cons_self _ _, ?_⟩
    intro x hx
    rcases List.mem_cons.mp hx with rfl | hx2
    · exact le_refl _
    · simp at hx2
  | cons t rest ih =>
    intro s
    rw [maxSnap]
    by_cases hlt : s.datetime < t.datetime
    · rw [if_pos hlt]
      obtain ⟨ihm, ihmax⟩ := ih t
      constructor
      · exact List.mem_cons_of_mem _ ihm
      · intro x hx
        rcases List.mem_cons.mp hx with rfl | hx2
        · exact le_trans (le_of_lt hlt) (ihmax t (List.mem_cons_self _ _))
        · exact ihmax x hx2
    · rw [if_neg hlt]
      obtain ⟨ihm, ihmax⟩ := ih s
      constructor
      · rcases List.mem_cons.mp ihm with he | hm
        · rw [he]
          exact List.mem_cons_self _ _
        · exact List.mem_cons_of_mem _ (List.mem_cons_of_mem _ hm)
      · intro x hx
        rcases List.mem_cons.mp hx with rfl | hx2
        · exact ihmax x (List.mem_cons_self _ _)
        · rcases List.mem_cons.mp hx2 with rfl | hx3
          · exact le_trans (le_of_not_lt hlt) (ihmax s (List.mem_cons_self _ _))
          · exact ihmax x (List.mem_cons_of_mem _ hx3)

theorem maxByDatetime_spec {l : List RSnapshot} {a : RSnapshot}
    (h : maxByDatetime l = some a) :
    a ∈ l ∧ ∀ x ∈ l, x.datetime ≤ a.datetime := by
  cases l with
  | nil => simp [maxByDatetime] at h
  | cons s rest =>
    have ha : maxSnap s rest = a := Option.some.inj h
    obtain ⟨hm, hmax⟩ := maxSnap_spec rest s
    exact ⟨ha ▸ hm, fun x hx => ha ▸ hmax x hx⟩

theorem maxByDatetime_isSome {l : List RSnapshot} (h : l ≠ []) :
    ∃ a, maxByDatetime l = some a := by
  cases l with
  | nil => exact absurd rfl h
  | cons s rest => exact ⟨maxSnap s rest, rfl⟩

/-- When datetimes are pairwise distinct, the newest-first scan of a slot
computes exactly the newest snapshot of the slot. -/
theorem find?_slot_eq_newestInSlot (snaps : List RSnapshot) (lo hi : Int)
    (hd : (snaps.map RSnapshot.datetime).Nodup) :
    (sortedByDatetimeDesc snaps).find? (fun s => inSlot lo hi s)
      = newestInSlot snaps lo hi := by
  cases hf : (sortedByDatetimeDesc snaps).find? (fun s => inSlot lo hi s) with
  | none =>
    have hnone : ∀ x ∈ snaps, ¬inSlot lo hi x = true := by
      intro x hx
      exact List.find?_eq_none.mp hf x (mem_sortedByDatetimeDesc.mpr hx)
    have hfil : snaps.filter (inSlot lo hi) = [] := by
      rw [List.filter_eq_nil_iff]
      exact hnone
    rw [newestInSlot, hfil]
    rfl
  | some a =>
    have ham : a ∈ snaps := mem_sortedByDatetimeDesc.mp (List.mem_of_find?_eq_some hf)
    have hap : inSlot lo hi a = true := List.find?_some hf
    have hamax : ∀ x ∈ snaps, inSlot lo hi x = true → x.datetime ≤ a.datetime := by
      intro x hx hpx
      exact find?_max_of_sorted (sorted_sortedByDatetimeDesc snaps) hf x
        (mem_sortedByDatetimeDesc.mpr hx) hpx
    have hane : snaps.filter (inSlot lo hi) ≠ [] := by
      intro hnil
      have : a ∈ snaps.filter (inSlot lo hi) := List.mem_filter.mpr ⟨ham, hap⟩
      rw [hnil] at this
      simp at this
    obtain ⟨b, hb⟩ := maxByDatetime_isSome hane
    obtain ⟨hbm, hbmax⟩ := maxByDatetime_spec hb
    have hbm2 : b ∈ snaps := (List.mem_filter.mp hbm).1
    have hbp : inSlot lo hi b = true := (List.mem_filter.mp hbm).2
    have h1 : a.datetime ≤ b.datetime :=
      hbmax a (List.mem_filter.mpr ⟨ham, hap⟩)
    have h2 : b.datetime ≤ a.datetime := hamax b hbm2 hbp
    have heq : a = b :=
      List.inj_on_of_nodup_map hd ham hbm2 (le_antisymm h1 h2)
    rw [newestInSlot, hb, heq]

theorem get_snapshots_none (snaps : List RSnapshot) : get_snapshots snaps none = snaps :=
  List.filter_true _

theorem mem_optSnapFinset (o : Option RSnapshot) (x : RSnapshot) :
    x ∈ optSnapFinset o ↔ o = some x := by
  cases o <;> simp [optSnapFinset, eq_comm]


/-- C3 (amended): with a keep policy of hourly = 2 and all other counters
zero, and pairwise distinct snapshot timestamps, the kept set is exactly
the newest snapshot of each of the two hour slots starting at the top of
the current (still open) hour: the slot [H, H + 1h) of the current hour
and the slot [H - 1h, H) of the previous hour, H being the current
instant truncated to minute zero; empty slots contribute nothing. -/
theorem hourly_two_keep_set_slots (snaps : List RSnapshot) (now : Int)
    (hd : (snaps.map RSnapshot.datetime).Nodup) :
    ((enforce_retention snaps ⟨0, 2, 0, 0, 0, 0⟩ none false false now).kept).toFinset
      = optSnapFinset (newestInSlot snaps (hourStart now) (hourStart now + 3600))
        ∪ optSnapFinset (newestInSlot snaps (hourStart now - 3600) (hourStart now)) := by
  have hks : retention_keep_set snaps ⟨0, 2, 0, 0, 0, 0⟩ none false false now
      = (get_hourly_snapshots snaps 2 now).toFinset := by
    simp [retention_keep_set, bucket_keep_set, get_snapshots_none]
  have hh : get_hourly_snapshots snaps 2 now
      = (get_delta_datetimes (hourStart now)
          (dtSub (hourStart now) ((RDelta.seconds 3600).mul 2)) (RDelta.seconds 3600)).filterMap
        (fun dt => (sortedByDatetimeDesc snaps).find?
          (fun s => decide (dt ≤ s.datetime)
            && decide (s.datetime < dtAdd dt (RDelta.seconds 3600)))) :=
    rfl
  rw [gdd_hourly_two] at hh
  have hpred1 : (fun s : RSnapshot => decide (hourStart now ≤ s.datetime)
      && decide (s.datetime < dtAdd (hourStart now) (RDelta.seconds 3600)))
      = fun s => inSlot (hourStart now) (hourStart now + 3600) s := rfl
  have hpred2 : (fun s : RSnapshot => decide (hourStart now - 3600 ≤ s.datetime)
      && decide (s.datetime < dtAdd (hourStart now - 3600) (RDelta.seconds 3600)))
      = fun s => inSlot (hourStart now - 3600) (hourStart now - 3600 + 3600) s := rfl
  have hf1 := find?_slot_eq_newestInSlot snaps (hourStart now) (hourStart now + 3600) hd
  have hf2 := find?_slot_eq_newestInSlot snaps (hourStart now - 3600)
    (hourStart now - 3600 + 3600) hd
  have hsimp : hourStart now - 3600 + 3600 = hourStart now := by ring
  have e2 : newestInSlot snaps (hourStart now - 3600) (hourStart now - 3600 + 3600)
      = newestInSlot snaps (hourStart now - 3600) (hourStart now) := by rw [hsimp]
  have hloop : enforce_retention snaps ⟨0, 2, 0, 0, 0, 0⟩ none false false now
      = ⟨(sortedByDatetimeDesc snaps).filter
            (fun s => decide (s ∈ (get_hourly_snapshots snaps 2 now).toFinset)),
          (sortedByDatetimeDesc snaps).filter
            (fun s => decide (s ∉ (get_hourly_snapshots snaps 2 now).toFinset))⟩ := by
    rw [enforce_retention, hks, get_snapshots_none]
    exact retentionLoop_false_eq _ _
  ext x
  rw [hloop]
  simp only [List.mem_toFinset, List.mem_filter, decide_eq_true_eq, Finset.mem_union]
  rw [mem_optSnapFinset, mem_optSnapFinset]
  constructor
  · intro hmem
    have hx : x ∈ get_hourly_snapshots snaps 2 now := hmem.2
    rw [hh] at hx
    rcases List.mem_filterMap.mp hx with ⟨dt, hdt, hfind⟩
    rcases List.mem_cons.mp hdt with rfl | hdt2
    · left
      rw [hpred1] at hfind
      rw [← hf1]
      exact hfind
    · rcases List.mem_cons.mp hdt2 with rfl | hdt3
      · right
        rw [hpred2] at hfind
        rw [← e2, ← hf2]
        exact hfind
      · simp at hdt3
  · intro hmem
    rcases hmem with h1 | h2
    · have hfind : (sortedByDatetimeDesc snaps).find?
          (fun s => inSlot (hourStart now) (hourStart now + 3600) s) = some x := by
        rw [hf1]
        exact h1
      refine ⟨List.mem_of_find?_eq_some hfind, ?_⟩
      rw [hh]
      refine List.mem_filterMap.mpr ⟨hourStart now, List.mem_cons_self _ _, ?_⟩
      rw [hpred1]
      exact hfind
    · have hfind : (sortedByDatetimeDesc snaps).find?
          (fun s => inSlot (hourStart now - 3600) (hourStart now - 3600 + 3600) s) = some x := by
        rw [hf2, e2]
        exact h2
      refine ⟨List.mem_of_find?_eq_some hfind, ?_⟩
      rw [hh]
      refine List.mem_filterMap.mpr
        ⟨hourStart now - 3600, List.mem_cons_of_mem _ (List.mem_cons_self _ _), ?_⟩
      rw [hpred2]
      exact hfind

/-- Concrete snapshot set for the hourly-rule claim: UTC times 08:10,
09:20, 10:40, 11:10 and 12:10 of the epoch day, spanning exactly four
hours, with the current instant at 12:30. -/
def c3snapA : RSnapshot := ⟨"zfssnap_19700101T081000Z", 29400, none, none⟩

def c3snapB : RSnapshot := ⟨"zfssnap_19700101T092000Z", 33600, none, none⟩

def c3snapC : RSnapshot := ⟨"zfssnap_19700101T104000Z", 38400, none, none⟩

def c3snapD : RSnapshot := ⟨"zfssnap_19700101T111000Z", 40200, none, none⟩

def c3snapE : RSnapshot := ⟨"zfssnap_19700101T121000Z", 43800, none, none⟩

def c3snaps : List RSnapshot := [c3snapA, c3snapB, c3snapC, c3snapD, c3snapE]

/-- Stated from the spec wording of the claim: the newest snapshot in
each of the two most recent COMPLETED hour slots, that is [H - 1h, H)
and [H - 2h, H - 1h) where H is the top of the current hour. -/
def claimHourlyKeepTwo (snaps : List RSnapshot) (now : Int) : Finset RSnapshot :=
  optSnapFinset (newestInSlot snaps (hourStart now - 3600) (hourStart now))
  ∪ optSnapFinset (newestInSlot snaps (hourStart now - 7200) (hourStart now - 3600))

/-- C3 counterexample: at 12:30, with snapshots at 08:10, 09:20, 10:40,
11:10 and 12:10 and keep hourly = 2, the code keeps the 12:10 and 11:10
snapshots (current hour slot and previous hour slot), not the newest
snapshots of the two most recent completed hour slots (11:10 and 10:40)
as the claim states. -/
theorem hourly_two_completed_slots_counterexample :
    ((enforce_retention c3snaps ⟨0, 2, 0, 0, 0, 0⟩ none false false 45000).kept).toFinset
      ≠ claimHourlyKeepTwo c3snaps 45000 := by decide

/-- Witness for the amended C3 theorem at the concrete snapshot set. -/
theorem hourly_two_keep_set_slots_witness :
    ((c3snaps.map RSnapshot.datetime).Nodup) ∧
    ((enforce_retention c3snaps ⟨0, 2, 0, 0, 0, 0⟩ none false false 45000).kept).toFinset
      = optSnapFinset (newestInSlot c3snaps (hourStart 45000) (hourStart 45000 + 3600))
        ∪ optSnapFinset (newestInSlot c3snaps (hourStart 45000 - 3600) (hourStart 45000)) :=
  ⟨by decide, hourly_two_keep_set_slots c3snaps 45000 (by decide)⟩

/-! MetadataFile: validation, write and read. -/

/-- The metadata JSON object without its checksum entry: the fixed keys
label, snapshot, version, timestamp, depends_on and segments. The
json.dumps serialization with sorted keys is injective on these objects,
so files are modelled by the object itself, and the md5 hex digest of
the serialization by a function parameter on the object. -/
structure Metadata where
  label : String
  snapshot : String
  version : String
  timestamp : String
  dependsOn : Option String
  segments : List String
deriving DecidableEq

/-- An on-disk metadata file: the serialized object plus the checksum
entry added by write. -/
structure MetaFileContent where
  dict : Metadata
  checksum : String
deriving DecidableEq

def isDigitCh (c : Char) : Bool := decide ('0' ≤ c) && decide (c ≤ '9')

/-- The timestamp pattern of the timestamp setter: eight digits, a T,
six digits and a Z, anchored at both ends. -/
def validTimestampChars (cs : List Char) : Bool :=
  decide (cs.length = 16) && (cs.take 8).all isDigitCh
    && decide ((cs.drop 8).take 1 = ['T']) && ((cs.drop 9).take 6).all isDigitCh
    && decide (cs.drop 15 = ['Z'])

def validTimestampStr (t : String) : Bool := validTimestampChars t.toList

/-- MetadataFile._validate_snapshot_name: the name zfssnap_ followed by a
timestamp, anchored at both ends. -/
def validSnapshotNameStr (n : String) : Bool :=
  decide (n.toList.take 8 = "zfssnap_".toList) && validTimestampChars (n.toList.drop 8)

/-- The label setter: any non-empty string (Python truthiness). -/
def validLabelStr (l : String) : Bool := decide (l ≠ "")

/-- The version setter: any non-empty string. -/
def validVersionStr (v : String) : Bool := decide (v ≠ "")

/-- The segments setter: any non-empty list. -/
def validSegmentsList (ss : List String) : Bool := decide (ss ≠ [])

/-- The depends_on setter: absent, or a valid snapshot name. -/
def validDependsOn : Option String → Bool
  | none => true
  | some d => validSnapshotNameStr d

/-- MetadataFile.write for an object whose fields are already populated:
compute the checksum of the dict, reject any falsy value of a key other
than depends_on (the checksum key included), and return the written
file. -/
def metadataWrite (hash : Metadata → String) (m : Metadata) : Except String MetaFileContent :=
  let cs := hash m
  if m.label = "" then .error "label"
  else if m.snapshot = "" then .error "snapshot"
  else if m.version = "" then .error "version"
  else if m.timestamp = "" then .error "timestamp"
  else if m.segments = [] then .error "segments"
  else if cs = "" then .error "checksum"
  else .ok ⟨m, cs⟩

/-- MetadataFile.read: pop the checksum entry, verify it against the
hash of the remaining dict, then assign every field through its
validating setter, in source order (version, timestamp, label, snapshot,
depends_on, segments). -/
def metadataRead (hash : Metadata → String) (fc : MetaFileContent) : Except String Metadata :=
  if fc.checksum ≠ hash fc.dict then .error "checksum"
  else if ¬validVersionStr fc.dict.version then .error "version"
  else if ¬validTimestampStr fc.dict.timestamp then .error "timestamp"
  else if ¬validLabelStr fc.dict.label then .error "label"
  else if ¬validSnapshotNameStr fc.dict.snapshot then .error "snapshot"
  else if ¬validDependsOn fc.dict.dependsOn then .error "depends_on"
  else if ¬validSegmentsList fc.dict.segments then .error "segments"
  else .ok fc.dict

theorem validSnapshotNameStr_ne_empty {n : String} (h : validSnapshotNameStr n = true) :
    n ≠ "" := by
  intro he
  rw [he] at h
  simp [validSnapshotNameStr] at h

theorem validTimestampStr_ne_empty {t : String} (h : validTimestampStr t = true) :
    t ≠ "" := by
  intro he
  rw [he] at h
  simp [validTimestampStr, validTimestampChars] at h

/-- C9: writing a metadata object whose fields pass the setters, then
reading the written file back, verifies the checksum and reproduces the
six fields exactly (for any checksum function with non-empty digests,
such as an md5 hex digest). -/
theorem metadata_write_read_roundtrip (hash : Metadata → String) (m : Metadata)
    (hlab : validLabelStr m.label = true)
    (hver : validVersionStr m.version = true)
    (hseg : validSegmentsList m.segments = true)
    (hsnap : validSnapshotNameStr m.snapshot = true)
    (hts : validTimestampStr m.timestamp = true)
    (hdep : validDependsOn m.dependsOn = true)
    (hh : hash m ≠ "") :
    ∃ fc, metadataWrite hash m = .ok fc ∧ metadataRead hash fc = .ok m := by
  have hlab2 : m.label ≠ "" := by simpa [validLabelStr] using hlab
  have hver2 : m.version ≠ "" := by simpa [validVersionStr] using hver
  have hseg2 : m.segments ≠ [] := by simpa [validSegmentsList] using hseg
  have hsnap2 : m.snapshot ≠ "" := validSnapshotNameStr_ne_empty hsnap
  have hts2 : m.timestamp ≠ "" := validTimestampStr_ne_empty hts
  refine ⟨⟨m, hash m⟩, ?_, ?_⟩
  · unfold metadataWrite
    rw [if_neg hlab2, if_neg hsnap2, if_neg hver2, if_neg hts2, if_neg hseg2, if_neg hh]
  · unfold metadataRead
    rw [if_neg (by simp : ¬(MetaFileContent.mk m (hash m)).checksum ≠ hash (MetaFileContent.mk m (hash m)).dict)]
    rw [if_neg (by simp [hver] : ¬¬validVersionStr (MetaFileContent.mk m (hash m)).dict.version = true)]
    rw [if_neg (by simp [hts]), if_neg (by simp [hlab]), if_neg (by simp [hsnap]),
      if_neg (by simp [hdep]), if_neg (by simp [hseg])]

/-- Concrete valid metadata object for witness evaluations. -/
def wmeta : Metadata :=
  ⟨"daily", "zfssnap_20200101T000000Z", "3.7.1", "20200101T000000Z", none,
    ["zfssnap_20200101T000000Z-aaaa"]⟩

/-- Witness for C9 with a concrete object and a constant digest. -/
theorem metadata_write_read_roundtrip_witness :
    validLabelStr wmeta.label = true ∧
    validVersionStr wmeta.version = true ∧
    validSegmentsList wmeta.segments = true ∧
    validSnapshotNameStr wmeta.snapshot = true ∧
    validTimestampStr wmeta.timestamp = true ∧
    validDependsOn wmeta.dependsOn = true ∧
    (fun _ : Metadata => "d41d8cd9") wmeta ≠ "" ∧
    (∃ fc, metadataWrite (fun _ => "d41d8cd9") wmeta = .ok fc ∧
      metadataRead (fun _ => "d41d8cd9") fc = .ok wmeta) :=
  ⟨by decide, by decide, by decide, by decide, by decide, by decide, by decide,
    metadata_write_read_roundtrip (fun _ => "d41d8cd9") wmeta (by decide) (by decide)
      (by decide) (by decide) (by decide) (by decide) (by decide)⟩

/-! Send side of the file-mediated replication engine. -/

/-- The program version constant. -/
def VERSION : String := "3.7.1"

/-- os.path.join for a directory and a relative name. -/
def joinPath (d n : String) : String := d ++ "/" ++ n

def isLowerAlpha (c : Char) : Bool := decide ('a' ≤ c) && decide (c ≤ 'z')

/-- One match attempt of the captured group at the current position: the
prefix followed by exactly the suffix-length lowercase letters. -/
def matchSegAt (pre : List Char) (n : Nat) (cs : List Char) : Option (List Char) :=
  let grp := (cs.drop pre.length).take n
  if decide (cs.take pre.length = pre) && decide (grp.length = n) && grp.all isLowerAlpha
  then some (pre ++ grp) else none

/-- The greedy leading dot-star of the segment regex makes the group
capture at the last position where it can match. -/
def lastMatchSeg (pre : List Char) (n : Nat) : List Char → Option (List Char)
  | [] => matchSegAt pre n []
  | c :: rest =>
    match lastMatchSeg pre n rest with
    | some g => some g
    | none => matchSegAt pre n (c :: rest)

/-- os.path.basename: the part after the last slash. -/
def basenameChars (cs : List Char) : List Char :=
  cs.foldl (fun acc c => if c = '/' then [] else acc ++ [c]) []

/-- ZFSSnap._get_segment_name: match one verbose line of the splitting
tool against the anchored pattern creating-file dot-star
(prefix, then suffix-length lowercase letters) dot-star, returning the
basename of the captured segment path; the whitespace class of the
pattern is modelled as the single space the tool emits. -/
def get_segment_name (pre : String) (n : Nat) (line : String) : Option String :=
  let heading := "creating file ".toList
  let cs := line.toList
  if cs.take heading.length = heading then
    (lastMatchSeg pre.toList n (cs.drop heading.length)).map
      (fun g => String.mk (basenameChars g))
  else none

/-- Filesystem.get_base_snapshot: resolve an explicitly requested base
snapshot (failing when absent) or fall back to the most recent
replication-success snapshot; none means a full send. -/
def get_base_snapshot (snaps : List RSnapshot) (label : Option String)
    (baseArg : Option String) : Except String (Option RSnapshot) :=
  match baseArg with
  | some b =>
    match get_snapshot snaps b with
    | none => .error "base snapshot not found"
    | some s => .ok (some s)
  | none => .ok (get_latest_repl_snapshot snaps label "success")

/-- ZFSSnap._write_metadata_file: populate a fresh MetadataFile through
its validating setters, in source order (segments, label, snapshot,
version, timestamp, depends_on), then write it. -/
def write_metadata_file (hash : Metadata → String) (segments : List String)
    (snapLabel snapName snapVersion snapTimestamp : String)
    (base : Option String) : Except String MetaFileContent :=
  if ¬validSegmentsList segments then .error "segments"
  else if ¬validLabelStr snapLabel then .error "label"
  else if ¬validSnapshotNameStr snapName then .error "snapshot"
  else if ¬validVersionStr snapVersion then .error "version"
  else if ¬validTimestampStr snapTimestamp then .error "timestamp"
  else if ¬validDependsOn base then .error "depends_on"
  else metadataWrite hash ⟨snapLabel, snapName, snapVersion, snapTimestamp, base, segments⟩

/-- Sender-side effects of send_to_file: the metadata file written (if
any) and whether the source snapshot was marked repl_status success. -/
structure SendState where
  metadataWritten : Option MetaFileContent
  srcMarked : Bool
deriving DecidableEq

inductive SendError where
  | replErr
  | snapshotErr
  | metadataErr
deriving DecidableEq

/-- ZFSSnap.send_to_file: resolve the base, create the new source
snapshot (named from the timestamp ts, labelled lab, versioned VERSION),
run the send-into-split pipeline (its outcome and verbose output lines
are parameters standing for the external processes), parse the created
segment names from the output, write the metadata file, and only then
mark the source snapshot repl_status success. Every failure aborts with
exactly the effects made so far. -/
def send_to_file (hash : Metadata → String) (srcSnaps : List RSnapshot) (lab : String)
    (dstDir filePre : String) (sufLen : Nat) (baseArg : Option String)
    (pipelineOk : Bool) (outputLines : List String) (ts : String) :
    SendState × Option SendError :=
  match get_base_snapshot srcSnaps (some lab) baseArg with
  | .error _ => (⟨none, false⟩, some .replErr)
  | .ok base =>
    if lab = "-" then (⟨none, false⟩, some .snapshotErr)
    else if pipelineOk = false then (⟨none, false⟩, some .replErr)
    else
      let pre := joinPath dstDir (filePre ++ "_" ++ ts ++ "-")
      let segments := outputLines.filterMap (fun l => get_segment_name pre sufLen l)
      match write_metadata_file hash segments lab ("zfssnap_" ++ ts) VERSION ts
          (base.map (fun b => b.name)) with
      | .error _ => (⟨none, false⟩, some .metadataErr)
      | .ok fc => (⟨some fc, true⟩, none)

/-- C5: in every execution of send_to_file the success marker on the
source snapshot is observed only together with a written metadata file;
in particular when writing the metadata file fails (for instance on an
empty parsed segment list) the marker is never set. -/
theorem send_marks_success_only_after_metadata
    (hash : Metadata → String) (srcSnaps : List RSnapshot) (lab : String)
    (dstDir filePre : String) (sufLen : Nat) (baseArg : Option String)
    (pipelineOk : Bool) (outputLines : List String) (ts : String)
    (hm : (send_to_file hash srcSnaps lab dstDir filePre sufLen baseArg
        pipelineOk outputLines ts).1.srcMarked = true) :
    (send_to_file hash srcSnaps lab dstDir filePre sufLen baseArg
        pipelineOk outputLines ts).1.metadataWritten.isSome = true := by
  revert hm
  unfold send_to_file
  split
  · intro hm
    simp at hm
  · split
    · intro hm
      simp at hm
    · split
      · intro hm
        simp at hm
      · dsimp only
        split
        · intro hm
          simp at hm
        · intro hm
          simp

/-- Witness for C5: a fully successful concrete send run with one parsed
segment; the marker and the metadata file are both present. -/
theorem send_marks_success_only_after_metadata_witness :
    (send_to_file (fun _ => "h") [] "daily" "out" "zfssnap" 4 none true
        ["creating file out/zfssnap_20200101T000000Z-aaaa"] "20200101T000000Z").1.srcMarked
      = true ∧
    (send_to_file (fun _ => "h") [] "daily" "out" "zfssnap" 4 none true
        ["creating file out/zfssnap_20200101T000000Z-aaaa"]
        "20200101T000000Z").1.metadataWritten.isSome = true :=
  ⟨by decide,
    send_marks_success_only_after_metadata (fun _ => "h") [] "daily" "out" "zfssnap" 4 none
      true ["creating file out/zfssnap_20200101T000000Z-aaaa"] "20200101T000000Z" (by decide)⟩

/-! Receive side of the file-mediated replication engine. -/

/-- A parsed, checksum-valid metadata unit as enumerated by
ZFSSnap._get_metadata_files: its file name, its fields, and the UTC
instants parsed from its timestamp field and from the timestamp embedded
in its snapshot name. -/
structure UnitMeta where
  path : String
  label : String
  version : String
  datetime : Int
  snapshot : String
  snapDatetime : Int
  dependsOn : Option String
  segments : List String
deriving DecidableEq

/-- The segment loop of ZFSSnap._cleanup_sync_files: remove each
declared segment in list order; because the FileNotFoundError
suppression wraps the whole loop, the first missing segment stops it.
Returns the remaining directory contents and whether the loop ran to
completion. -/
def removeSegments : List String → List String → List String × Bool
  | [], fs => (fs, true)
  | s :: rest, fs => if s ∈ fs then removeSegments rest (fs.erase s) else (fs, false)

/-- ZFSSnap._cleanup_sync_files on a directory modelled as the list of
file names it contains: delete the unit's segment files in order, then
its metadata file; a missing file silently stops the whole block, and no
error ever reaches the caller (the function is total). -/
def cleanup_sync_files (segments : List String) (metaName : String)
    (fs : List String) : List String :=
  match removeSegments segments fs with
  | (fs2, true) => if metaName ∈ fs2 then fs2.erase metaName else fs2
  | (fs2, false) => fs2

/-- Receiver-side state: the destination filesystem's snapshot list and
the transfer directory contents. -/
structure RecvState where
  dst : List RSnapshot
  fs : List String
deriving DecidableEq

inductive RecvError where
  | repl
  | segMissing
deriving DecidableEq

/-- The broken-dependency test of receive_from_file: a depends_on
snapshot is declared but absent on the destination. -/
def dependsBroken (dst : List RSnapshot) (m : UnitMeta) : Bool :=
  match m.dependsOn with
  | none => false
  | some d => decide (get_snapshot dst d = none)

/-- receive_from_file after the staleness check: dependency check, then
segment presence check of ZFSSnap._get_segments (the generator raises
SegmentMissingException while the cat command line is built, before any
process runs), then the cat-into-receive pipeline (outcome a parameter);
on success the destination snapshot record is synthesized with the
unit's label and version, marked repl_status success, and the consumed
files deleted best effort. -/
def receive_from_file_rest (pipelineOk : Bool) (st : RecvState) (m : UnitMeta) :
    RecvState × Bool × Option RecvError :=
  if dependsBroken st.dst m then (st, false, some .repl)
  else if m.segments.any (fun s => decide (s ∉ st.fs)) then (st, false, some .segMissing)
  else if pipelineOk = false then (st, false, some .repl)
  else
    (⟨⟨m.snapshot, m.snapDatetime, some m.label, some "success"⟩ :: st.dst,
      cleanup_sync_files m.segments m.path st.fs⟩, true, none)

/-- ZFSSnap.receive_from_file for one unit: resolve the destination's
most recent replication-success snapshot for the label; when its
timestamp is at or past the unit's timestamp, delete the unit's files
and stop without applying; otherwise run the apply steps. The middle
component tells whether an apply happened. -/
def receive_from_file (lab : String) (pipelineOk : Bool) (st : RecvState) (m : UnitMeta) :
    RecvState × Bool × Option RecvError :=
  match get_latest_repl_snapshot st.dst (some lab) "success" with
  | some p =>
    if p.datetime ≥ m.datetime then
      (⟨st.dst, cleanup_sync_files m.segments m.path st.fs⟩, false, none)
    else receive_from_file_rest pipelineOk st m
  | none => receive_from_file_rest pipelineOk st m

def splitDotsAux : List Char → List Char → List (List Char)
  | [], acc => [acc.reverse]
  | c :: rest, acc =>
    if c = '.' then acc.reverse :: splitDotsAux rest []
    else splitDotsAux rest (c :: acc)

def parseNatChars (cs : List Char) : Nat :=
  cs.foldl (fun a c => a * 10 + (c.toNat - 48)) 0

/-- distutils StrictVersion on the plain numeric dotted versions the
program uses: the list of numeric components. -/
def parseVersion (s : String) : List Nat :=
  (splitDotsAux s.toList []).map parseNatChars

def padZeros (l : List Nat) (n : Nat) : List Nat :=
  l ++ List.replicate (n - l.length) 0

def lexLtNat : List Nat → List Nat → Bool
  | [], [] => false
  | [], _ => false
  | _, [] => false
  | a :: as, b :: bs => decide (a < b) || (decide (a = b) && lexLtNat as bs)

/-- StrictVersion(a) > StrictVersion(b) for plain numeric versions,
missing components comparing as zero. -/
def versionNewer (a b : String) : Bool :=
  let va := parseVersion a
  let vb := parseVersion b
  let n := max va.length vb.length
  lexLtNat (padZeros vb n) (padZeros va n)

/-- ZFSSnap._get_metadata_files over already-parsed checksum-valid units
(reading and checksum verification belong to the MetadataFile model):
skip units carrying a foreign label, raise ReplicationException for any
remaining unit produced by a strictly newer version, and yield the rest
in scan order. The whole generator is drained into a list before any
unit is processed. -/
def get_metadata_files (lab : String) : List UnitMeta → Except RecvError (List UnitMeta)
  | [] => .ok []
  | u :: rest =>
    if u.label ≠ lab then get_metadata_files lab rest
    else if versionNewer u.version VERSION then .error .repl
    else (get_metadata_files lab rest).map (fun r => u :: r)

/-- Ascending-timestamp ordering of metadata units. -/
def udasc (a b : UnitMeta) : Prop := a.datetime ≤ b.datetime

instance : DecidableRel udasc := fun a b => Int.decLe a.datetime b.datetime

def sortUnitsAsc (l : List UnitMeta) : List UnitMeta := l.insertionSort udasc

inductive LoopResult where
  | finished (st : RecvState)
  | caught (st : RecvState)
  | raised (st : RecvState) (e : RecvError)
deriving DecidableEq

/-- The per-unit loop of _run_receive_from_file_policy together with its
try block: process units in ascending timestamp order; a
SegmentMissingException stops the loop and is caught (logged only); any
other exception stops the loop and propagates. -/
def run_receive_loop (lab : String) (pipe : UnitMeta → Bool) :
    List UnitMeta → RecvState → LoopResult
  | [], st => .finished st
  | m :: rest, st =>
    match receive_from_file lab (pipe m) st m with
    | (st2, _, none) => run_receive_loop lab pipe rest st2
    | (st2, _, some .segMissing) => .caught st2
    | (st2, _, some e) => .raised st2 e

def loopResultToRun : LoopResult → RecvState × Option RecvError
  | .finished st => (st, none)
  | .caught st => (st, none)
  | .raised st e => (st, some e)

/-- ZFSSnap._run_receive_from_file_policy without reset: enumerate the
metadata units (the label filter and version gate run here, before
anything is applied), return early when none remain, otherwise process
them in ascending timestamp order under the SegmentMissingException
catch. The second component is the exception escaping the run, if
any. -/
def run_receive_from_file_policy (lab : String) (pipe : UnitMeta → Bool)
    (units : List UnitMeta) (st : RecvState) : RecvState × Option RecvError :=
  match get_metadata_files lab units with
  | .error e => (st, some e)
  | .ok mfs =>
    if mfs.isEmpty then (st, none)
    else loopResultToRun (run_receive_loop lab pipe (sortUnitsAsc mfs) st)

theorem removeSegments_stop {pre : List String} :
    ∀ {fs fs2 : List String} {s : String}, removeSegments pre fs = (fs2, true) → s ∉ fs2 →
      ∀ post, removeSegments (pre ++ s :: post) fs = (fs2, false) := by
  induction pre with
  | nil =>
    intro fs fs2 s h1 h2 post
    simp only [removeSegments, Prod.mk.injEq] at h1
    obtain ⟨he, -⟩ := h1
    subst he
    rw [List.nil_append]
    simp [removeSegments, h2]
  | cons a pre ih =>
    intro fs fs2 s h1 h2 post
    simp only [removeSegments] at h1
    by_cases ha : a ∈ fs
    · rw [if_pos ha] at h1
      have hs := ih h1 h2 post
      rw [List.cons_append]
      simp only [removeSegments]
      rw [if_pos ha]
      exact hs
    · rw [if_neg ha] at h1
      simp at h1

/-- C10: the FileNotFoundError suppression of _cleanup_sync_files wraps
the entire deletion loop: when a declared segment is missing at its
turn, deletion stops silently there, later segments and the metadata
file are left on disk, and no error reaches the caller (the cleanup
function is total). -/
theorem cleanup_stops_at_first_missing_segment
    (pre post : List String) (s metaName : String) (fs fs2 : List String)
    (h1 : removeSegments pre fs = (fs2, true)) (h2 : s ∉ fs2) :
    cleanup_sync_files (pre ++ s :: post) metaName fs = fs2 ∧
      (metaName ∈ fs2 → metaName ∈ cleanup_sync_files (pre ++ s :: post) metaName fs) ∧
      ∀ t ∈ post, t ∈ fs2 → t ∈ cleanup_sync_files (pre ++ s :: post) metaName fs := by
  have hrm := removeSegments_stop h1 h2 post
  have hc : cleanup_sync_files (pre ++ s :: post) metaName fs = fs2 := by
    unfold cleanup_sync_files
    rw [hrm]
  refine ⟨hc, ?_, ?_⟩
  · intro h
    rw [hc]
    exact h
  · intro t _ ht
    rw [hc]
    exact ht

/-- Witness for C10: segments a, b, c with b missing on disk; deletion
removes a, stops at b, and leaves c and the metadata file in place. -/
theorem cleanup_stops_at_first_missing_segment_witness :
    removeSegments ["a"] ["a", "c", "m"] = (["c", "m"], true) ∧
    "b" ∉ ["c", "m"] ∧
    (cleanup_sync_files (["a"] ++ "b" :: ["c"]) "m" ["a", "c", "m"] = ["c", "m"] ∧
      ("m" ∈ ["c", "m"] →
        "m" ∈ cleanup_sync_files (["a"] ++ "b" :: ["c"]) "m" ["a", "c", "m"]) ∧
      ∀ t ∈ ["c"], t ∈ ["c", "m"] →
        t ∈ cleanup_sync_files (["a"] ++ "b" :: ["c"]) "m" ["a", "c", "m"]) :=
  ⟨by decide, by decide,
    cleanup_stops_at_first_missing_segment ["a"] ["c"] "b" "m" ["a", "c", "m"] ["c", "m"]
      (by decide) (by decide)⟩

theorem removeSegments_all_present :
    ∀ (segs fs : List String), segs.Nodup → fs.Nodup → (∀ s ∈ segs, s ∈ fs) →
      ∃ fs2, removeSegments segs fs = (fs2, true) ∧ fs2.Nodup ∧
        ∀ x, x ∈ fs2 ↔ x ∈ fs ∧ x ∉ segs := by
  intro segs
  induction segs with
  | nil =>
    intro fs _ hnd _
    exact ⟨fs, rfl, hnd, by simp⟩
  | cons s rest ih =>
    intro fs hnds hndf hall
    have hs : s ∈ fs := hall s (List.mem_cons_self _ _)
    have h1 : rest.Nodup := hnds.of_cons
    have h2 : (fs.erase s).Nodup := hndf.erase s
    have h3 : ∀ t ∈ rest, t ∈ fs.erase s := by
      intro t ht
      have hts : t ≠ s := by
        intro he
        exact (List.nodup_cons.mp hnds).1 (he ▸ ht)
      exact (List.mem_erase_of_ne hts).mpr (hall t (List.mem_cons_of_mem _ ht))
    obtain ⟨fs2, hr, hnd2, hmem⟩ := ih (fs.erase s) h1 h2 h3
    refine ⟨fs2, ?_, hnd2, ?_⟩
    · simp only [removeSegments]
      rw [if_pos hs]
      exact hr
    · intro x
      rw [hmem x]
      constructor
      · rintro ⟨hxe, hxr⟩
        have hxp := hndf.mem_erase_iff.mp hxe
        refine ⟨hxp.2, ?_⟩
        intro hxsr
        rcases List.mem_cons.mp hxsr with he | hm
        · exact hxp.1 he
        · exact hxr hm
      · rintro ⟨hxf, hxsr⟩
        have hxs : x ≠ s := fun he => hxsr (he ▸ List.mem_cons_self _ _)
        have hxr : x ∉ rest := fun hr2 => hxsr (List.mem_cons_of_mem _ hr2)
        exact ⟨hndf.mem_erase_iff.mpr ⟨hxs, hxf⟩, hxr⟩

/-- When every declared segment is present (and names are unique), the
cleanup removes exactly the segments and the metadata file. -/
theorem cleanup_all_present (segs : List String) (metaName : String) (fs : List String)
    (hnds : segs.Nodup) (hndf : fs.Nodup) (hall : ∀ s ∈ segs, s ∈ fs) :
    ∀ x, x ∈ cleanup_sync_files segs metaName fs ↔
      x ∈ fs ∧ x ∉ segs ∧ x ≠ metaName := by
  obtain ⟨fs2, hr, hnd2, hmem⟩ := removeSegments_all_present segs fs hnds hndf hall
  intro x
  unfold cleanup_sync_files
  rw [hr]
  show x ∈ (if metaName ∈ fs2 then fs2.erase metaName else fs2) ↔ _
  by_cases hm2 : metaName ∈ fs2
  · rw [if_pos hm2, hnd2.mem_erase_iff, hmem x]
    constructor
    · rintro ⟨hne, hf, hns⟩
      exact ⟨hf, hns, hne⟩
    · rintro ⟨hf, hns, hne⟩
      exact ⟨hne, hf, hns⟩
  · rw [if_neg hm2, hmem x]
    constructor
    · rintro ⟨hf, hns⟩
      refine ⟨hf, hns, ?_⟩
      intro he
      exact hm2 ((hmem metaName).mpr ⟨he ▸ hf, he ▸ hns⟩)
    · rintro ⟨hf, hns, _⟩
      exact ⟨hf, hns⟩

/-- C6 (amended): a unit whose timestamp is at or before the
destination's most recent success snapshot is a no-op: no receive or
apply runs, the destination snapshot state is unchanged, no error is
raised, and the unit's files are handed to the best-effort cleanup,
which deletes all its segment files and its metadata file whenever every
declared segment is present (a missing segment stops the deletion block,
see the cleanup theorem). -/
theorem receive_stale_unit_is_noop
    (lab : String) (pipelineOk : Bool) (st : RecvState) (m : UnitMeta) (p : RSnapshot)
    (h1 : get_latest_repl_snapshot st.dst (some lab) "success" = some p)
    (h2 : p.datetime ≥ m.datetime) :
    receive_from_file lab pipelineOk st m
      = (⟨st.dst, cleanup_sync_files m.segments m.path st.fs⟩, false, none) ∧
      (m.segments.Nodup → st.fs.Nodup → (∀ s ∈ m.segments, s ∈ st.fs) →
        ∀ x, x ∈ cleanup_sync_files m.segments m.path st.fs ↔
          x ∈ st.fs ∧ x ∉ m.segments ∧ x ≠ m.path) := by
  constructor
  · unfold receive_from_file
    split
    next p2 heq =>
      rw [h1] at heq
      have hp : p2 = p := (Option.some.inj heq).symm
      subst hp
      rw [if_pos h2]
    next heq =>
      rw [h1] at heq
      exact absurd heq (by simp)
  · exact fun hnds hndf hall => cleanup_all_present m.segments m.path st.fs hnds hndf hall

/-- Destination success snapshot at instant 100 for the staleness
scenarios. -/
def c6p : RSnapshot := ⟨"zfssnap_19700101T000140Z", 100, some "daily", some "success"⟩

/-- A stale metadata unit (timestamp 50) declaring segments s1 and s2
and stored in file meta. -/
def c6m : UnitMeta :=
  ⟨"meta", "daily", "1.0.0", 50, "zfssnap_19700101T000050Z", 50, none, ["s1", "s2"]⟩

/-- Receiver state where segment s1 of the stale unit is absent. -/
def c6st : RecvState := ⟨[c6p], ["s2", "meta"]⟩

/-- Receiver state where both segments of the stale unit are present. -/
def c6wst : RecvState := ⟨[c6p], ["s1", "s2", "meta"]⟩

/-- C6 counterexample: the staleness premise holds (success snapshot at
100, unit at 50) and no apply happens, but because declared segment s1
is absent the deletion block stops immediately and the metadata file is
NOT deleted, contradicting the claim that the unit's segment files and
metadata file are deleted. -/
theorem receive_stale_counterexample :
    get_latest_repl_snapshot c6st.dst (some "daily") "success" = some c6p ∧
    c6p.datetime ≥ c6m.datetime ∧
    (receive_from_file "daily" true c6st c6m).2.1 = false ∧
    "meta" ∈ (receive_from_file "daily" true c6st c6m).1.fs ∧
    "s2" ∈ (receive_from_file "daily" true c6st c6m).1.fs := by
  refine ⟨by decide, by decide, by decide, by decide, by decide⟩

/-- Witness for the amended C6 theorem in the all-segments-present
state. -/
theorem receive_stale_unit_is_noop_witness :
    get_latest_repl_snapshot c6wst.dst (some "daily") "success" = some c6p ∧
    c6p.datetime ≥ c6m.datetime ∧
    (receive_from_file "daily" true c6wst c6m
        = (⟨c6wst.dst, cleanup_sync_files c6m.segments c6m.path c6wst.fs⟩, false, none) ∧
      (c6m.segments.Nodup → c6wst.fs.Nodup → (∀ s ∈ c6m.segments, s ∈ c6wst.fs) →
        ∀ x, x ∈ cleanup_sync_files c6m.segments c6m.path c6wst.fs ↔
          x ∈ c6wst.fs ∧ x ∉ c6m.segments ∧ x ≠ c6m.path)) :=
  ⟨by decide, by decide,
    receive_stale_unit_is_noop "daily" true c6wst c6m c6p (by decide) (by decide)⟩

theorem receive_rest_segment_missing (pipelineOk : Bool) (st : RecvState) (m : UnitMeta)
    (hdep : dependsBroken st.dst m = false)
    (hmiss : ∃ s ∈ m.segments, s ∉ st.fs) :
    receive_from_file_rest pipelineOk st m = (st, false, some .segMissing) := by
  unfold receive_from_file_rest
  rw [if_neg (by simp [hdep])]
  have hc : m.segments.any (fun s => decide (s ∉ st.fs)) = true := by
    obtain ⟨s, hs, hns⟩ := hmiss
    exact List.any_eq_true.mpr ⟨s, hs, by simpa⟩
  rw [if_pos hc]

/-- A unit that is not stale, has its dependency satisfied, and declares
a segment missing on disk, fails with SegmentMissingException before any
receive is attempted, leaving the state unchanged. -/
theorem receive_segment_missing (lab : String) (pipelineOk : Bool) (st : RecvState)
    (m : UnitMeta)
    (hstale : ∀ p, get_latest_repl_snapshot st.dst (some lab) "success" = some p →
      p.datetime < m.datetime)
    (hdep : dependsBroken st.dst m = false)
    (hmiss : ∃ s ∈ m.segments, s ∉ st.fs) :
    receive_from_file lab pipelineOk st m = (st, false, some .segMissing) := by
  unfold receive_from_file
  split
  next p heq =>
    rw [if_neg (not_le.mpr (hstale p heq))]
    exact receive_rest_segment_missing pipelineOk st m hdep hmiss
  next heq =>
    exact receive_rest_segment_missing pipelineOk st m hdep hmiss

theorem run_receive_loop_cons_none (lab : String) (pipe : UnitMeta → Bool) (m : UnitMeta)
    (rest : List UnitMeta) (st st3 : RecvState) (b : Bool)
    (h : receive_from_file lab (pipe m) st m = (st3, b, none)) :
    run_receive_loop lab pipe (m :: rest) st = run_receive_loop lab pipe rest st3 := by
  conv_lhs => unfold run_receive_loop
  rw [h]

theorem run_receive_loop_cons_segMissing (lab : String) (pipe : UnitMeta → Bool)
    (m : UnitMeta) (rest : List UnitMeta) (st st3 : RecvState) (b : Bool)
    (h : receive_from_file lab (pipe m) st m = (st3, b, some .segMissing)) :
    run_receive_loop lab pipe (m :: rest) st = .caught st3 := by
  unfold run_receive_loop
  rw [h]

theorem run_receive_loop_cons_repl (lab : String) (pipe : UnitMeta → Bool)
    (m : UnitMeta) (rest : List UnitMeta) (st st3 : RecvState) (b : Bool)
    (h : receive_from_file lab (pipe m) st m = (st3, b, some .repl)) :
    run_receive_loop lab pipe (m :: rest) st = .raised st3 .repl := by
  unfold run_receive_loop
  rw [h]

theorem run_receive_loop_append (lab : String) (pipe : UnitMeta → Bool) :
    ∀ (us1 : List UnitMeta) {st st2 : RecvState},
      run_receive_loop lab pipe us1 st = .finished st2 →
      ∀ us2, run_receive_loop lab pipe (us1 ++ us2) st = run_receive_loop lab pipe us2 st2 := by
  intro us1
  induction us1 with
  | nil =>
    intro st st2 h us2
    have he : st = st2 := by
      simpa [run_receive_loop] using h
    rw [List.nil_append, he]
  | cons m rest ih =>
    intro st st2 h us2
    rcases hres : receive_from_file lab (pipe m) st m with ⟨st3, b, err⟩
    cases err with
    | none =>
      rw [run_receive_loop_cons_none lab pipe m rest st st3 b hres] at h
      rw [List.cons_append, run_receive_loop_cons_none lab pipe m (rest ++ us2) st st3 b hres]
      exact ih h us2
    | some e =>
      cases e with
      | repl =>
        rw [run_receive_loop_cons_repl lab pipe m rest st st3 b hres] at h
        simp at h
      | segMissing =>
        rw [run_receive_loop_cons_segMissing lab pipe m rest st st3 b hres] at h
        simp at h

/-- C7: when processing reaches a unit (not stale, dependency present)
with a declared segment absent from the source directory, the unit
raises SegmentMissingException before any receive, with destination
state and files unchanged; the run loop catches it, the remaining units
are not processed, and the run returns without propagating it. -/
theorem segment_missing_stops_run
    (lab : String) (pipe : UnitMeta → Bool) (units us1 us2 mfs : List UnitMeta)
    (m : UnitMeta) (st st2 : RecvState)
    (hget : get_metadata_files lab units = .ok mfs)
    (hsort : sortUnitsAsc mfs = us1 ++ m :: us2)
    (hpre : run_receive_loop lab pipe us1 st = .finished st2)
    (hstale : ∀ p, get_latest_repl_snapshot st2.dst (some lab) "success" = some p →
      p.datetime < m.datetime)
    (hdep : dependsBroken st2.dst m = false)
    (hmiss : ∃ s ∈ m.segments, s ∉ st2.fs) :
    receive_from_file lab (pipe m) st2 m = (st2, false, some .segMissing) ∧
      run_receive_loop lab pipe (us1 ++ m :: us2) st = .caught st2 ∧
      run_receive_from_file_policy lab pipe units st = (st2, none) := by
  have hrecv := receive_segment_missing lab (pipe m) st2 m hstale hdep hmiss
  have hloop : run_receive_loop lab pipe (us1 ++ m :: us2) st = .caught st2 := by
    rw [run_receive_loop_append lab pipe us1 hpre (m :: us2)]
    rw [run_receive_loop_cons_segMissing lab pipe m us2 st2 st2 false hrecv]
  refine ⟨hrecv, hloop, ?_⟩
  have hne : mfs.isEmpty = false := by
    cases mfs with
    | nil =>
      rw [show sortUnitsAsc ([] : List UnitMeta) = [] from rfl] at hsort
      have hlen := congrArg List.length hsort
      simp [List.length_append] at hlen
      omega
    | cons u r => rfl
  unfold run_receive_from_file_policy
  rw [hget]
  show (if mfs.isEmpty then (st, none)
      else loopResultToRun (run_receive_loop lab pipe (sortUnitsAsc mfs) st)) = (st2, none)
  rw [hne, if_neg (by simp), hsort, hloop]
  rfl

/-- A unit with a missing segment used for concrete runs. -/
def c7m : UnitMeta :=
  ⟨"meta", "daily", "1.0.0", 50, "zfssnap_19700101T000050Z", 50, none, ["s1"]⟩

/-- Witness for C7: a single-unit run over an empty destination and an
empty source directory; the declared segment is absent, so the run stops
at that unit, catches the condition, and returns normally. -/
theorem segment_missing_stops_run_witness :
    get_metadata_files "daily" [c7m] = .ok [c7m] ∧
    sortUnitsAsc [c7m] = [] ++ c7m :: [] ∧
    run_receive_loop "daily" (fun _ => true) [] ⟨[], []⟩ = .finished ⟨[], []⟩ ∧
    (∃ s ∈ c7m.segments, s ∉ (RecvState.mk [] []).fs) ∧
    (receive_from_file "daily" ((fun _ : UnitMeta => true) c7m) ⟨[], []⟩ c7m
        = (⟨[], []⟩, false, some .segMissing) ∧
      run_receive_loop "daily" (fun _ => true) ([] ++ c7m :: []) ⟨[], []⟩ = .caught ⟨[], []⟩ ∧
      run_receive_from_file_policy "daily" (fun _ => true) [c7m] ⟨[], []⟩ = (⟨[], []⟩, none)) :=
  ⟨rfl, by decide, rfl, by decide,
    segment_missing_stops_run "daily" (fun _ => true) [c7m] [] [] [c7m] c7m ⟨[], []⟩ ⟨[], []⟩
      rfl (by decide) rfl
      (by
        intro p hp
        rw [show get_latest_repl_snapshot (RecvState.mk [] []).dst (some "daily") "success"
            = none from rfl] at hp
        exact Option.noConfusion hp)
      (by decide) (by decide)⟩

theorem get_metadata_files_newer_error (lab : String) :
    ∀ units : List UnitMeta,
      (∃ u ∈ units, u.label = lab ∧ versionNewer u.version VERSION = true) →
      get_metadata_files lab units = .error .repl := by
  intro units
  induction units with
  | nil =>
    intro h
    simp at h
  | cons u rest ih =>
    intro h
    by_cases hl : u.label ≠ lab
    · have hrest : ∃ v ∈ rest, v.label = lab ∧ versionNewer v.version VERSION = true := by
        obtain ⟨v, hv, hvl, hvv⟩ := h
        rcases List.mem_cons.mp hv with rfl | hv2
        · exact absurd hvl hl
        · exact ⟨v, hv2, hvl, hvv⟩
      unfold get_metadata_files
      rw [if_pos hl]
      exact ih hrest
    · by_cases hv : versionNewer u.version VERSION = true
      · unfold get_metadata_files
        rw [if_neg hl, if_pos hv]
      · have hrest : ∃ v ∈ rest, v.label = lab ∧ versionNewer v.version VERSION = true := by
          obtain ⟨v, hvm, hvl, hvv⟩ := h
          rcases List.mem_cons.mp hvm with rfl | hv2
          · exact absurd hvv hv
          · exact ⟨v, hv2, hvl, hvv⟩
        unfold get_metadata_files
        rw [if_neg hl, if_neg hv, ih hrest]
        rfl

/-- C8: when any enumerated unit matching the policy label declares a
producer version strictly newer than the receiver's own, the run raises
ReplicationException during enumeration, before any unit is applied and
without touching any file: the returned state is the input state. -/
theorem version_gate_rejects_newer_producer
    (lab : String) (pipe : UnitMeta → Bool) (units : List UnitMeta) (st : RecvState)
    (hex : ∃ u ∈ units, u.label = lab ∧ versionNewer u.version VERSION = true) :
    run_receive_from_file_policy lab pipe units st = (st, some .repl) := by
  have h := get_metadata_files_newer_error lab units hex
  unfold run_receive_from_file_policy
  rw [h]

/-- A unit declaring producer version 99.0 for the version-gate run. -/
def c8u : UnitMeta :=
  ⟨"meta2", "daily", "99.0", 10, "zfssnap_19700101T000010Z", 10, none, ["x"]⟩

/-- Witness for C8: one too-new unit makes the whole run fail with
ReplicationException and an unchanged state. -/
theorem version_gate_rejects_newer_producer_witness :
    (∃ u ∈ [c8u], u.label = "daily" ∧ versionNewer u.version VERSION = true) ∧
    run_receive_from_file_policy "daily" (fun _ => true) [c8u] ⟨[], []⟩
      = (⟨[], []⟩, some .repl) :=
  ⟨by decide,
    version_gate_rejects_newer_producer "daily" (fun _ => true) [c8u] ⟨[], []⟩ (by decide)⟩
